import Mathlib

/-!
Verification of the ring-buffer repository (src/ring_buffer.h).

The header offers two fixed-capacity circular buffer strategies behind one
contract:
* `GuardElemRingBuffer` keeps one guard storage slot beyond the nominal
  capacity `S`, so `head == tail` means empty and
  `(head + 1) % (S + 1) == tail` means full;
* `FullFlagRingBuffer` keeps exactly `S` slots plus an explicit boolean
  full flag `_full`.

Both are shallowly embedded below: the `std::array` storage becomes a
`List α`, the `size_t` cursors become `Nat` (the code only ever stores
values already reduced modulo the physical capacity, so no machine-width
truncation can occur), and `std::optional<T>` becomes `Option α`.
`read`, `write`, `clear` become pure state transformers; `full`, `empty`,
`size`, `capacity` become pure observers, each the literal transcription
of the corresponding member function body.
-/

namespace RingBufferProof

/-- Index increment of `GuardElemRingBuffer`:
`(idx + 1) % true_capacity` with `true_capacity = S + 1`. -/
def guardIdxIncrement (S idx : Nat) : Nat :=
  (idx + 1) % (S + 1)

/-- State of `GuardElemRingBuffer<T, S>`: storage of physical length
`S + 1` (one guard element), plus the write cursor `head` and the read
cursor `tail` inherited from `BaseRingBuffer`. -/
structure GuardElemRingBuffer (α : Type) (S : Nat) where
  buf : List α
  head : Nat
  tail : Nat
deriving Repr

namespace GuardElemRingBuffer

variable {α : Type} {S : Nat}

/-- Construction: `head = tail = 0`, value-initialized storage of
`true_capacity = S + 1` elements. -/
def init [Inhabited α] (S : Nat) : GuardElemRingBuffer α S :=
  ⟨List.replicate (S + 1) default, 0, 0⟩

/-- Source `capacity()` of `StaticCapacityRingBuffer`: returns the nominal `S`. -/
def capacity (_b : GuardElemRingBuffer α S) : Nat := S

/-- Source `full()`: `idx_increment(head) == tail`. -/
def full (b : GuardElemRingBuffer α S) : Bool :=
  guardIdxIncrement S b.head == b.tail

/-- Source `empty()`: `head == tail`. -/
def empty (b : GuardElemRingBuffer α S) : Bool :=
  b.head == b.tail

/-- Source `read()`: on empty return the empty optional; otherwise return
`buf[tail]` and advance `tail`. -/
def read [Inhabited α] (b : GuardElemRingBuffer α S) :
    Option α × GuardElemRingBuffer α S :=
  if b.empty then (none, b)
  else (some (b.buf.getD b.tail default),
        { b with tail := guardIdxIncrement S b.tail })

/-- Source `write(data)`: store at `head`; if the buffer was full (`full()`
still sees the pre-advance cursors), advance `tail` (dropping the oldest
element); then advance `head`. -/
def write (b : GuardElemRingBuffer α S) (data : α) : GuardElemRingBuffer α S :=
  ⟨b.buf.set b.head data,
   guardIdxIncrement S b.head,
   if guardIdxIncrement S b.head == b.tail
   then guardIdxIncrement S b.tail else b.tail⟩

/-- Source `clear()`: the code executes `this->head = this->tail`. -/
def clear (b : GuardElemRingBuffer α S) : GuardElemRingBuffer α S :=
  { b with head := b.tail }

/-- Source `size()`: `capacity` when full, else `head - tail` when
`head >= tail`, else `(true_capacity + head) - tail`. -/
def size (b : GuardElemRingBuffer α S) : Nat :=
  if b.full then b.capacity
  else if b.tail ≤ b.head then b.head - b.tail
  else (S + 1 + b.head) - b.tail

end GuardElemRingBuffer

/-- Index increment of `FullFlagRingBuffer`: `(idx + 1) % S`. -/
def flagIdxIncrement (S idx : Nat) : Nat :=
  (idx + 1) % S

/-- State of `FullFlagRingBuffer<T, S>`: storage of physical length `S`,
cursors `head` and `tail`, and the boolean full flag `_full`. -/
structure FullFlagRingBuffer (α : Type) (S : Nat) where
  buf : List α
  head : Nat
  tail : Nat
  _full : Bool
deriving Repr

namespace FullFlagRingBuffer

variable {α : Type} {S : Nat}

/-- Construction: `head = tail = 0`, `_full = false`, value-initialized
storage of `S` elements. -/
def init [Inhabited α] (S : Nat) : FullFlagRingBuffer α S :=
  ⟨List.replicate S default, 0, 0, false⟩

/-- Source `capacity()`: returns the nominal `S`. -/
def capacity (_b : FullFlagRingBuffer α S) : Nat := S

/-- Source `full()`: returns `_full` directly. -/
def full (b : FullFlagRingBuffer α S) : Bool :=
  b._full

/-- Source `empty()`: `head == tail && !_full`. -/
def empty (b : FullFlagRingBuffer α S) : Bool :=
  (b.head == b.tail) && !b._full

/-- Source `read()`: on empty return the empty optional; otherwise return
`buf[tail]`, advance `tail`, and set `_full = false`. -/
def read [Inhabited α] (b : FullFlagRingBuffer α S) :
    Option α × FullFlagRingBuffer α S :=
  if b.empty then (none, b)
  else (some (b.buf.getD b.tail default),
        { b with tail := flagIdxIncrement S b.tail, _full := false })

/-- Source `write(data)`: store at `head`; if full, advance `tail`; advance
`head`; finally recompute `_full = (head == tail)` on the moved cursors. -/
def write (b : FullFlagRingBuffer α S) (data : α) : FullFlagRingBuffer α S :=
  ⟨b.buf.set b.head data,
   flagIdxIncrement S b.head,
   if b._full then flagIdxIncrement S b.tail else b.tail,
   flagIdxIncrement S b.head
     == (if b._full then flagIdxIncrement S b.tail else b.tail)⟩

/-- Source `clear()`: the code executes `this->head = this->tail; _full = false`. -/
def clear (b : FullFlagRingBuffer α S) : FullFlagRingBuffer α S :=
  { b with head := b.tail, _full := false }

/-- Source `size()`: `S` when `_full`, else `head - tail` when `head >= tail`,
else `(S + head) - tail`. -/
def size (b : FullFlagRingBuffer α S) : Nat :=
  if b._full then S
  else if b.tail ≤ b.head then b.head - b.tail
  else (S + b.head) - b.tail

end FullFlagRingBuffer

/-!
Abstract model: the caller-visible contents of either buffer is a FIFO
queue of at most `S` pending values, oldest first.  Writing appends,
and drops the oldest element first when the queue already holds `S`
values; reading pops the front.  Each concrete strategy is related to
this model by a representation predicate below.
-/

/-- Abstract queue model with nominal capacity `S`: the pending
(written but not yet consumed) values, oldest first. -/
structure RingModel (α : Type) (S : Nat) where
  q : List α
deriving Repr

namespace RingModel

variable {α : Type} {S : Nat}

/-- The empty model. -/
def init (S : Nat) : RingModel α S := ⟨[]⟩

/-- Model write: overwrite-on-full drops the oldest element. -/
def write (m : RingModel α S) (data : α) : RingModel α S :=
  if m.q.length = S then ⟨m.q.drop 1 ++ [data]⟩ else ⟨m.q ++ [data]⟩

/-- Model read: pop the oldest pending value, if any. -/
def read (m : RingModel α S) : Option α × RingModel α S :=
  match m.q with
  | [] => (none, m)
  | x :: xs => (some x, ⟨xs⟩)

/-- Model clear. -/
def clear (_m : RingModel α S) : RingModel α S := ⟨[]⟩

/-- Model size: the number of pending values. -/
def size (m : RingModel α S) : Nat := m.q.length

end RingModel

/-!
Operation sequences.  The public contract has seven operations; an `Op`
names one call and an `Out` records its observable result (`read` yields
an optional value, the predicates yield booleans, `size`/`capacity`
yield numbers, mutators yield nothing).
-/

/-- One call of the public contract. -/
inductive Op (α : Type) where
  | readOp : Op α
  | writeOp (data : α) : Op α
  | clearOp : Op α
  | fullOp : Op α
  | emptyOp : Op α
  | sizeOp : Op α
  | capacityOp : Op α
deriving Repr

/-- The observable result of one call. -/
inductive Out (α : Type) where
  | ounit : Out α
  | oval (o : Option α) : Out α
  | obool (b : Bool) : Out α
  | onat (n : Nat) : Out α
deriving Repr, DecidableEq

variable {α : Type} {S : Nat}

/-- One step of `GuardElemRingBuffer`: observable result and next state. -/
def guardStep [Inhabited α] (b : GuardElemRingBuffer α S) :
    Op α → Out α × GuardElemRingBuffer α S
  | .readOp => let p := b.read; (.oval p.1, p.2)
  | .writeOp data => (.ounit, b.write data)
  | .clearOp => (.ounit, b.clear)
  | .fullOp => (.obool b.full, b)
  | .emptyOp => (.obool b.empty, b)
  | .sizeOp => (.onat b.size, b)
  | .capacityOp => (.onat b.capacity, b)

/-- State of `GuardElemRingBuffer` after a sequence of calls. -/
def guardExec [Inhabited α] (b : GuardElemRingBuffer α S) :
    List (Op α) → GuardElemRingBuffer α S
  | [] => b
  | op :: ops => guardExec (guardStep b op).2 ops

/-- Observable results of `GuardElemRingBuffer` along a sequence of calls. -/
def guardRun [Inhabited α] (b : GuardElemRingBuffer α S) :
    List (Op α) → List (Out α)
  | [] => []
  | op :: ops => (guardStep b op).1 :: guardRun (guardStep b op).2 ops

/-- One step of `FullFlagRingBuffer`: observable result and next state. -/
def flagStep [Inhabited α] (b : FullFlagRingBuffer α S) :
    Op α → Out α × FullFlagRingBuffer α S
  | .readOp => let p := b.read; (.oval p.1, p.2)
  | .writeOp data => (.ounit, b.write data)
  | .clearOp => (.ounit, b.clear)
  | .fullOp => (.obool b.full, b)
  | .emptyOp => (.obool b.empty, b)
  | .sizeOp => (.onat b.size, b)
  | .capacityOp => (.onat b.capacity, b)

/-- State of `FullFlagRingBuffer` after a sequence of calls. -/
def flagExec [Inhabited α] (b : FullFlagRingBuffer α S) :
    List (Op α) → FullFlagRingBuffer α S
  | [] => b
  | op :: ops => flagExec (flagStep b op).2 ops

/-- Observable results of `FullFlagRingBuffer` along a sequence of calls. -/
def flagRun [Inhabited α] (b : FullFlagRingBuffer α S) :
    List (Op α) → List (Out α)
  | [] => []
  | op :: ops => (flagStep b op).1 :: flagRun (flagStep b op).2 ops

/-- One step of the abstract model. -/
def modelStep (m : RingModel α S) : Op α → Out α × RingModel α S
  | .readOp => let p := m.read; (.oval p.1, p.2)
  | .writeOp data => (.ounit, m.write data)
  | .clearOp => (.ounit, m.clear)
  | .fullOp => (.obool (m.q.length == S), m)
  | .emptyOp => (.obool (m.q.length == 0), m)
  | .sizeOp => (.onat m.size, m)
  | .capacityOp => (.onat S, m)

/-- Model state after a sequence of calls. -/
def modelExec (m : RingModel α S) : List (Op α) → RingModel α S
  | [] => m
  | op :: ops => modelExec (modelStep m op).2 ops

/-- Model results along a sequence of calls. -/
def modelRun (m : RingModel α S) : List (Op α) → List (Out α)
  | [] => []
  | op :: ops => (modelStep m op).1 :: modelRun (modelStep m op).2 ops

/-!
Representation predicates.  A concrete buffer state represents the
abstract queue `q` when the storage has the right physical length, the
cursors are reduced, the cursor distance equals the queue length, and
the storage holds the queue values circularly starting at `tail`.
-/

/-- Source `GuardElemRingBuffer` state `b` represents the pending queue `q`. -/
structure GuardRepr [Inhabited α] (b : GuardElemRingBuffer α S)
    (q : List α) : Prop where
  hbuf : b.buf.length = S + 1
  htail : b.tail < S + 1
  hq : q.length ≤ S
  hhead : b.head = (b.tail + q.length) % (S + 1)
  helem : ∀ i, i < q.length →
    b.buf.getD ((b.tail + i) % (S + 1)) default = q.getD i default

/-- Source `FullFlagRingBuffer` state `b` represents the pending queue `q`. -/
structure FlagRepr [Inhabited α] (b : FullFlagRingBuffer α S)
    (q : List α) : Prop where
  hbuf : b.buf.length = S
  htail : b.tail < S
  hq : q.length ≤ S
  hflag : b._full = (q.length == S)
  hhead : b.head = (b.tail + q.length) % S
  helem : ∀ i, i < q.length →
    b.buf.getD ((b.tail + i) % S) default = q.getD i default

/-!
Bulk operations: a sequence of `write` calls, and a drain of `n`
successive `read` calls collecting each returned optional.
-/

/-- Apply a sequence of `write` calls to a guard-element buffer. -/
def GuardElemRingBuffer.writes (b : GuardElemRingBuffer α S) :
    List α → GuardElemRingBuffer α S
  | [] => b
  | x :: xs => (b.write x).writes xs

/-- Perform `n` successive `read` calls on a guard-element buffer,
collecting the returned optionals in call order. -/
def GuardElemRingBuffer.reads [Inhabited α] (b : GuardElemRingBuffer α S) :
    Nat → List (Option α) × GuardElemRingBuffer α S
  | 0 => ([], b)
  | n + 1 =>
    ((b.read).1 :: ((b.read).2.reads n).1, ((b.read).2.reads n).2)

/-- Apply a sequence of `write` calls to a full-flag buffer. -/
def FullFlagRingBuffer.writes (b : FullFlagRingBuffer α S) :
    List α → FullFlagRingBuffer α S
  | [] => b
  | x :: xs => (b.write x).writes xs

/-- Perform `n` successive `read` calls on a full-flag buffer,
collecting the returned optionals in call order. -/
def FullFlagRingBuffer.reads [Inhabited α] (b : FullFlagRingBuffer α S) :
    Nat → List (Option α) × FullFlagRingBuffer α S
  | 0 => ([], b)
  | n + 1 =>
    ((b.read).1 :: ((b.read).2.reads n).1, ((b.read).2.reads n).2)

/-- Apply a sequence of model writes. -/
def RingModel.writes (m : RingModel α S) : List α → RingModel α S
  | [] => m
  | x :: xs => (m.write x).writes xs

/-- Perform `n` successive model reads, collecting the returned
optionals in call order. -/
def RingModel.reads (m : RingModel α S) :
    Nat → List (Option α) × RingModel α S
  | 0 => ([], m)
  | n + 1 =>
    ((m.read).1 :: ((m.read).2.reads n).1, ((m.read).2.reads n).2)

/-!
Arithmetic and list helper lemmas.
-/

/-- Adding a fixed offset and reducing modulo `m` is injective on `[0, m)`. -/
theorem add_mod_inj {m t a b : Nat} (ha : a < m) (hb : b < m)
    (h : (t + a) % m = (t + b) % m) : a = b := by
  have h2 : a ≡ b [MOD m] := Nat.ModEq.add_left_cancel' t h
  rwa [Nat.ModEq, Nat.mod_eq_of_lt ha, Nat.mod_eq_of_lt hb] at h2

/-- Reading back the written position of a `set`. -/
theorem getD_set_self [Inhabited α] (l : List α) (n : Nat) (a : α)
    (h : n < l.length) : (l.set n a).getD n default = a := by
  rw [List.getD_eq_getElem _ _ (by simpa using h)]
  exact List.getElem_set_self (by simpa using h)

/-- Reading any other position of a `set`. -/
theorem getD_set_ne [Inhabited α] (l : List α) (m n : Nat) (a : α)
    (hne : m ≠ n) : (l.set n a).getD m default = l.getD m default := by
  rcases Nat.lt_or_ge m l.length with hm | hm
  · rw [List.getD_eq_getElem _ _ (by simpa using hm),
        List.getD_eq_getElem _ _ hm]
    exact List.getElem_set_ne (Ne.symm hne) _
  · rw [List.getD_eq_default _ _ (by simpa using hm),
        List.getD_eq_default _ _ hm]
/-- If `t < m` and `a < m`, then `(t + a) % m = t` holds exactly when
`a = 0`. -/
theorem add_mod_left_eq_iff {m t a : Nat} (ht : t < m) (ha : a < m) :
    (t + a) % m = t ↔ a = 0 := by
  constructor
  · intro h
    exact add_mod_inj ha (Nat.lt_of_le_of_lt (Nat.zero_le a) ha |>.trans_le
      (Nat.le_refl m)) (h.trans (Nat.mod_eq_of_lt ht).symm)
  · intro h
    subst h
    exact Nat.mod_eq_of_lt ht

/-!
Simulation lemmas for `GuardElemRingBuffer`: each operation of the code
matches the abstract queue model through `GuardRepr`.
-/

/-- Field computation of the guard-element `write`: the storage. -/
theorem guard_write_buf (b : GuardElemRingBuffer α S) (data : α) :
    (b.write data).buf = b.buf.set b.head data := rfl

/-- Field computation of the guard-element `write`: the head cursor. -/
theorem guard_write_head (b : GuardElemRingBuffer α S) (data : α) :
    (b.write data).head = guardIdxIncrement S b.head := rfl

/-- Field computation of the guard-element `write` on a full buffer:
the tail cursor advances. -/
theorem guard_write_tail_of_full {b : GuardElemRingBuffer α S} (data : α)
    (hf : guardIdxIncrement S b.head = b.tail) :
    (b.write data).tail = guardIdxIncrement S b.tail := by
  simp [GuardElemRingBuffer.write, hf]

/-- Field computation of the guard-element `write` on a non-full buffer:
the tail cursor stays. -/
theorem guard_write_tail_of_not_full {b : GuardElemRingBuffer α S} (data : α)
    (hf : ¬ guardIdxIncrement S b.head = b.tail) :
    (b.write data).tail = b.tail := by
  simp [GuardElemRingBuffer.write, hf]

/-- Computation of the guard-element `read` on an empty buffer. -/
theorem guard_read_of_empty [Inhabited α] {b : GuardElemRingBuffer α S}
    (he : b.empty = true) : b.read = (none, b) := by
  simp [GuardElemRingBuffer.read, he]

/-- Computation of the guard-element `read` on a non-empty buffer. -/
theorem guard_read_of_not_empty [Inhabited α] {b : GuardElemRingBuffer α S}
    (he : b.empty = false) :
    b.read = (some (b.buf.getD b.tail default),
              { b with tail := guardIdxIncrement S b.tail }) := by
  simp [GuardElemRingBuffer.read, he]

/-- The freshly constructed guard-element buffer represents the empty queue. -/
theorem guardRepr_init [Inhabited α] (S : Nat) :
    GuardRepr (GuardElemRingBuffer.init (α := α) S) [] := by
  refine ⟨?_, ?_, ?_, ?_, ?_⟩ <;>
    simp [GuardElemRingBuffer.init]

/-- In a represented state, `full()` answers whether the queue holds `S`
values. -/
theorem guardFull_eq [Inhabited α] {b : GuardElemRingBuffer α S} {q : List α}
    (h : GuardRepr b q) : b.full = (q.length == S) := by
  rw [Bool.eq_iff_iff]
  simp only [GuardElemRingBuffer.full, guardIdxIncrement, beq_iff_eq]
  rw [h.hhead, Nat.mod_add_mod]
  constructor
  · intro hEq
    by_cases hs : q.length = S
    · exact hs
    · have hlt : q.length + 1 < S + 1 := by have := h.hq; omega
      have h0 : (b.tail + (q.length + 1)) % (S + 1) = b.tail := hEq
      have := (add_mod_left_eq_iff h.htail hlt).mp h0
      omega
  · intro hs
    rw [hs]
    exact (Nat.add_mod_right _ _).trans (Nat.mod_eq_of_lt h.htail)

/-- In a represented state, `empty()` answers whether the queue is empty. -/
theorem guardEmpty_eq [Inhabited α] {b : GuardElemRingBuffer α S} {q : List α}
    (h : GuardRepr b q) : b.empty = (q.length == 0) := by
  rw [Bool.eq_iff_iff]
  simp only [GuardElemRingBuffer.empty, beq_iff_eq]
  rw [h.hhead]
  exact add_mod_left_eq_iff h.htail (Nat.lt_succ_of_le h.hq)

/-- In a represented state, `size()` returns the number of pending values. -/
theorem guardSize_eq [Inhabited α] {b : GuardElemRingBuffer α S} {q : List α}
    (h : GuardRepr b q) : b.size = q.length := by
  have htail := h.htail
  have hq := h.hq
  by_cases hs : q.length = S
  · have hfull : b.full = true := by rw [guardFull_eq h, hs]; simp
    simp [GuardElemRingBuffer.size, hfull, GuardElemRingBuffer.capacity, hs]
  · have hfull : b.full = false := by rw [guardFull_eq h]; simp [hs]
    rcases Nat.lt_or_ge (b.tail + q.length) (S + 1) with hc | hc
    · have hh : b.head = b.tail + q.length := by
        rw [h.hhead]
        exact Nat.mod_eq_of_lt hc
      simp only [GuardElemRingBuffer.size, hfull, Bool.false_eq_true,
        if_false]
      split <;> omega
    · have hh : b.head = b.tail + q.length - (S + 1) := by
        rw [h.hhead, Nat.mod_eq_sub_mod hc]
        exact Nat.mod_eq_of_lt (by omega)
      simp only [GuardElemRingBuffer.size, hfull, Bool.false_eq_true,
        if_false]
      split <;> omega

/-- Source `write` on a represented non-full guard-element buffer appends to the
queue. -/
theorem guardRepr_write_not_full [Inhabited α] {b : GuardElemRingBuffer α S}
    {q : List α} (h : GuardRepr b q) (hL : q.length < S) (data : α) :
    GuardRepr (b.write data) (q ++ [data]) := by
  have hm : 0 < S + 1 := Nat.succ_pos S
  have hfull : ¬ guardIdxIncrement S b.head = b.tail := by
    intro hEq
    have h2 := Nat.mod_add_mod (b.tail + q.length) (S + 1) 1
    rw [← h.hhead] at h2
    have h1 : (b.tail + (q.length + 1)) % (S + 1) = b.tail := h2.symm.trans hEq
    have := (add_mod_left_eq_iff h.htail (by omega)).mp h1
    omega
  refine ⟨?_, ?_, ?_, ?_, ?_⟩
  · rw [guard_write_buf]
    simp [h.hbuf]
  · rw [guard_write_tail_of_not_full data hfull]
    exact h.htail
  · simp only [List.length_append, List.length_cons, List.length_nil]
    omega
  · rw [guard_write_head, guard_write_tail_of_not_full data hfull]
    show (b.head + 1) % (S + 1) = _
    rw [h.hhead, Nat.mod_add_mod]
    simp only [List.length_append, List.length_cons, List.length_nil]
    have h3 : b.tail + q.length + 1 = b.tail + (q.length + (0 + 1)) := by omega
    rw [h3]
  · intro i hi
    rw [guard_write_buf, guard_write_tail_of_not_full data hfull]
    simp only [List.length_append, List.length_cons, List.length_nil] at hi
    rcases Nat.lt_or_ge i q.length with hiq | hiq
    · have hne : (b.tail + i) % (S + 1) ≠ b.head := by
        intro hEq
        rw [h.hhead] at hEq
        have := add_mod_inj (show i < S + 1 by omega)
          (show q.length < S + 1 by omega) hEq
        omega
      rw [getD_set_ne _ _ _ _ hne, h.helem i hiq,
        List.getD_append _ _ _ _ hiq]
    · have hieq : i = q.length := by omega
      subst hieq
      rw [← h.hhead,
        getD_set_self _ _ _ (by rw [h.hbuf, h.hhead]; exact Nat.mod_lt _ hm),
        List.getD_append_right _ _ _ _ (Nat.le_refl _)]
      simp

/-- Source `write` on a represented full guard-element buffer drops the oldest
value and appends the new one. -/
theorem guardRepr_write_full [Inhabited α] {b : GuardElemRingBuffer α S}
    {q : List α} (h : GuardRepr b q) (hL : q.length = S) (hS : 1 ≤ S)
    (data : α) : GuardRepr (b.write data) (q.drop 1 ++ [data]) := by
  have hm : 0 < S + 1 := Nat.succ_pos S
  rcases q with _ | ⟨y, q2⟩
  · simp only [List.length_nil] at hL
    omega
  have hq2 : q2.length = S - 1 := by
    simp only [List.length_cons] at hL
    omega
  have hfull : guardIdxIncrement S b.head = b.tail := by
    have h2 := Nat.mod_add_mod (b.tail + (y :: q2).length) (S + 1) 1
    rw [← h.hhead] at h2
    have h3 : (b.tail + (y :: q2).length + 1) % (S + 1) = b.tail := by
      rw [hL]
      exact (Nat.add_mod_right _ _).trans (Nat.mod_eq_of_lt h.htail)
    exact h2.trans h3
  have hlen : ((y :: q2).drop 1 ++ [data]).length = S := by
    simp only [List.drop_one, List.tail_cons, List.length_append,
      List.length_cons, List.length_nil]
    omega
  have h12 : b.head = (b.tail + S) % (S + 1) := by
    rw [h.hhead, hL]
  refine ⟨?_, ?_, ?_, ?_, ?_⟩
  · rw [guard_write_buf]
    simp [h.hbuf]
  · rw [guard_write_tail_of_full data hfull]
    exact Nat.mod_lt _ hm
  · rw [hlen]
  · rw [guard_write_head, guard_write_tail_of_full data hfull, hlen, hfull]
    show b.tail = ((b.tail + 1) % (S + 1) + S) % (S + 1)
    rw [Nat.mod_add_mod]
    have h7 : b.tail + 1 + S = b.tail + (S + 1) := by omega
    rw [h7]
    exact ((Nat.add_mod_right _ _).trans (Nat.mod_eq_of_lt h.htail)).symm
  · intro i hi
    rw [hlen] at hi
    rw [guard_write_buf, guard_write_tail_of_full data hfull]
    show (b.buf.set b.head data).getD
        (((b.tail + 1) % (S + 1) + i) % (S + 1)) default
      = (q2 ++ [data]).getD i default
    rw [Nat.mod_add_mod]
    have h8 : b.tail + 1 + i = b.tail + (1 + i) := by omega
    rw [h8]
    rcases Nat.lt_or_ge i (S - 1) with hiq | hiq
    · have hne : (b.tail + (1 + i)) % (S + 1) ≠ b.head := by
        intro hEq
        rw [h12] at hEq
        have := add_mod_inj (show 1 + i < S + 1 by omega)
          (show S < S + 1 by omega) hEq
        omega
      rw [getD_set_ne _ _ _ _ hne]
      have h9 := h.helem (1 + i)
        (by simp only [List.length_cons]; omega)
      rw [h9]
      have hci : 1 + i = i + 1 := Nat.add_comm 1 i
      rw [hci]
      have h10 : (y :: q2).getD (i + 1) default = q2.getD i default := rfl
      rw [h10, List.getD_append _ _ _ _ (by omega)]
    · have hieq : i = S - 1 := by omega
      subst hieq
      have h11 : b.tail + (1 + (S - 1)) = b.tail + S := by omega
      rw [h11, ← h12,
        getD_set_self _ _ _ (by rw [h.hbuf, h12]; exact Nat.mod_lt _ hm),
        List.getD_append_right _ _ _ _ (by omega)]
      simp [hq2]

/-- Source `read` on a represented guard-element buffer matches the model read. -/
theorem guardRepr_read [Inhabited α] {b : GuardElemRingBuffer α S}
    {q : List α} (h : GuardRepr b q) :
    (b.read).1 = (RingModel.read (S := S) ⟨q⟩).1 ∧
    GuardRepr (b.read).2 (RingModel.read (S := S) ⟨q⟩).2.q := by
  have hm : 0 < S + 1 := Nat.succ_pos S
  rcases q with _ | ⟨y, q2⟩
  · have hemp : b.empty = true := by rw [guardEmpty_eq h]; simp
    rw [guard_read_of_empty hemp]
    exact ⟨rfl, h⟩
  · have hemp : b.empty = false := by rw [guardEmpty_eq h]; simp
    rw [guard_read_of_not_empty hemp]
    constructor
    · have h0 := h.helem 0 (by simp)
      have h0' : b.buf.getD (b.tail % (S + 1)) default = y := h0
      rw [Nat.mod_eq_of_lt h.htail] at h0'
      rw [h0']
      rfl
    · refine ⟨h.hbuf, Nat.mod_lt _ hm, ?_, ?_, ?_⟩
      · show q2.length ≤ S
        have := h.hq
        simp only [List.length_cons] at this
        omega
      · show b.head = ((b.tail + 1) % (S + 1) + q2.length) % (S + 1)
        rw [Nat.mod_add_mod, h.hhead]
        have h3 : b.tail + (y :: q2).length = b.tail + 1 + q2.length := by
          simp only [List.length_cons]
          omega
        rw [h3]
      · intro i hi
        have hi2 : i < q2.length := hi
        show b.buf.getD (((b.tail + 1) % (S + 1) + i) % (S + 1)) default
          = q2.getD i default
        rw [Nat.mod_add_mod]
        have h6 : b.tail + 1 + i = b.tail + (i + 1) := by omega
        rw [h6]
        exact h.helem (i + 1) (by simp only [List.length_cons]; omega)

/-- Source `clear` on any guard-element buffer state represents the empty queue. -/
theorem guardRepr_clear [Inhabited α] {b : GuardElemRingBuffer α S}
    {q : List α} (h : GuardRepr b q) : GuardRepr b.clear [] := by
  refine ⟨h.hbuf, h.htail, by simp, ?_, ?_⟩
  · exact (Nat.mod_eq_of_lt h.htail).symm
  · intro i hi
    simp only [List.length_nil] at hi
    omega

/-!
Simulation lemmas for `FullFlagRingBuffer`: each operation of the code
matches the abstract queue model through `FlagRepr`.
-/

/-- Field computation of the full-flag `write`: the storage. -/
theorem flag_write_buf (b : FullFlagRingBuffer α S) (data : α) :
    (b.write data).buf = b.buf.set b.head data := rfl

/-- Field computation of the full-flag `write`: the head cursor. -/
theorem flag_write_head (b : FullFlagRingBuffer α S) (data : α) :
    (b.write data).head = flagIdxIncrement S b.head := rfl

/-- Field computation of the full-flag `write` on a full buffer:
the tail cursor advances. -/
theorem flag_write_tail_of_full {b : FullFlagRingBuffer α S} (data : α)
    (hf : b._full = true) :
    (b.write data).tail = flagIdxIncrement S b.tail := by
  simp [FullFlagRingBuffer.write, hf]

/-- Field computation of the full-flag `write` on a non-full buffer:
the tail cursor stays. -/
theorem flag_write_tail_of_not_full {b : FullFlagRingBuffer α S} (data : α)
    (hf : b._full = false) : (b.write data).tail = b.tail := by
  simp [FullFlagRingBuffer.write, hf]

/-- Recomputed flag of the full-flag `write` on a full buffer. -/
theorem flag_write_flag_of_full {b : FullFlagRingBuffer α S} (data : α)
    (hf : b._full = true) :
    (b.write data)._full
      = (flagIdxIncrement S b.head == flagIdxIncrement S b.tail) := by
  simp [FullFlagRingBuffer.write, hf]

/-- Recomputed flag of the full-flag `write` on a non-full buffer. -/
theorem flag_write_flag_of_not_full {b : FullFlagRingBuffer α S} (data : α)
    (hf : b._full = false) :
    (b.write data)._full = (flagIdxIncrement S b.head == b.tail) := by
  simp [FullFlagRingBuffer.write, hf]

/-- Computation of the full-flag `read` on an empty buffer. -/
theorem flag_read_of_empty [Inhabited α] {b : FullFlagRingBuffer α S}
    (he : b.empty = true) : b.read = (none, b) := by
  simp [FullFlagRingBuffer.read, he]

/-- Computation of the full-flag `read` on a non-empty buffer. -/
theorem flag_read_of_not_empty [Inhabited α] {b : FullFlagRingBuffer α S}
    (he : b.empty = false) :
    b.read = (some (b.buf.getD b.tail default),
              { b with tail := flagIdxIncrement S b.tail,
                       _full := false }) := by
  simp [FullFlagRingBuffer.read, he]

/-- The freshly constructed full-flag buffer represents the empty queue
(for a positive nominal capacity). -/
theorem flagRepr_init [Inhabited α] (S : Nat) (hS : 1 ≤ S) :
    FlagRepr (FullFlagRingBuffer.init (α := α) S) [] := by
  refine ⟨by simp [FullFlagRingBuffer.init], hS, by simp, ?_, by simp
    [FullFlagRingBuffer.init], ?_⟩
  · show false = (0 == S)
    symm
    simp
    omega
  · intro i hi
    simp only [List.length_nil] at hi
    omega

/-- In a represented state, `full()` answers whether the queue holds `S`
values. -/
theorem flagFull_eq [Inhabited α] {b : FullFlagRingBuffer α S} {q : List α}
    (h : FlagRepr b q) : b.full = (q.length == S) :=
  h.hflag

/-- In a represented state, `empty()` answers whether the queue is empty. -/
theorem flagEmpty_eq [Inhabited α] {b : FullFlagRingBuffer α S} {q : List α}
    (h : FlagRepr b q) : b.empty = (q.length == 0) := by
  have hS : 0 < S := Nat.lt_of_le_of_lt (Nat.zero_le _) h.htail
  rw [Bool.eq_iff_iff]
  simp only [FullFlagRingBuffer.empty, Bool.and_eq_true, Bool.not_eq_true',
    beq_iff_eq, h.hflag]
  constructor
  · rintro ⟨hht, hneS⟩
    have hneS2 : q.length ≠ S := by
      intro hEq
      rw [hEq] at hneS
      simp at hneS
    rw [h.hhead] at hht
    exact (add_mod_left_eq_iff h.htail
      (Nat.lt_of_le_of_ne h.hq hneS2)).mp hht
  · intro hL0
    constructor
    · rw [h.hhead, hL0]
      exact Nat.mod_eq_of_lt h.htail
    · rw [hL0]
      simp
      omega

/-- In a represented state, `size()` returns the number of pending values. -/
theorem flagSize_eq [Inhabited α] {b : FullFlagRingBuffer α S} {q : List α}
    (h : FlagRepr b q) : b.size = q.length := by
  have htail := h.htail
  have hq := h.hq
  by_cases hs : q.length = S
  · have hfl : b._full = true := by rw [h.hflag, hs]; simp
    simp [FullFlagRingBuffer.size, hfl, hs]
  · have hfl : b._full = false := by rw [h.hflag]; simp [hs]
    rcases Nat.lt_or_ge (b.tail + q.length) S with hc | hc
    · have hh : b.head = b.tail + q.length := by
        rw [h.hhead]
        exact Nat.mod_eq_of_lt hc
      simp only [FullFlagRingBuffer.size, hfl, Bool.false_eq_true, if_false]
      split <;> omega
    · have hh : b.head = b.tail + q.length - S := by
        rw [h.hhead, Nat.mod_eq_sub_mod hc]
        exact Nat.mod_eq_of_lt (by omega)
      simp only [FullFlagRingBuffer.size, hfl, Bool.false_eq_true, if_false]
      split <;> omega

/-- Source `write` on a represented non-full full-flag buffer appends to the
queue. -/
theorem flagRepr_write_not_full [Inhabited α] {b : FullFlagRingBuffer α S}
    {q : List α} (h : FlagRepr b q) (hL : q.length < S) (data : α) :
    FlagRepr (b.write data) (q ++ [data]) := by
  have hS : 0 < S := Nat.lt_of_le_of_lt (Nat.zero_le _) h.htail
  have hs : ¬ q.length = S := by omega
  have hfl : b._full = false := by rw [h.hflag]; simp [hs]
  refine ⟨?_, ?_, ?_, ?_, ?_, ?_⟩
  · rw [flag_write_buf]
    simp [h.hbuf]
  · rw [flag_write_tail_of_not_full data hfl]
    exact h.htail
  · simp only [List.length_append, List.length_cons, List.length_nil]
    omega
  · rw [flag_write_flag_of_not_full data hfl, Bool.eq_iff_iff]
    simp only [beq_iff_eq, List.length_append, List.length_cons,
      List.length_nil]
    show (b.head + 1) % S = b.tail ↔ _
    constructor
    · intro hEq
      by_cases hs2 : q.length + 1 = S
      · omega
      · have h2 := Nat.mod_add_mod (b.tail + q.length) S 1
        rw [← h.hhead] at h2
        have h1 : (b.tail + (q.length + 1)) % S = b.tail := h2.symm.trans hEq
        have := (add_mod_left_eq_iff h.htail (by omega)).mp h1
        omega
    · intro hEq
      have h2 := Nat.mod_add_mod (b.tail + q.length) S 1
      rw [← h.hhead] at h2
      have h3 : (b.tail + q.length + 1) % S = b.tail := by
        have h4 : b.tail + q.length + 1 = b.tail + S := by omega
        rw [h4]
        exact (Nat.add_mod_right _ _).trans (Nat.mod_eq_of_lt h.htail)
      exact h2.trans h3
  · rw [flag_write_head, flag_write_tail_of_not_full data hfl]
    show (b.head + 1) % S = _
    rw [h.hhead, Nat.mod_add_mod]
    simp only [List.length_append, List.length_cons, List.length_nil]
    have h3 : b.tail + q.length + 1 = b.tail + (q.length + (0 + 1)) := by
      omega
    rw [h3]
  · intro i hi
    rw [flag_write_buf, flag_write_tail_of_not_full data hfl]
    simp only [List.length_append, List.length_cons, List.length_nil] at hi
    rcases Nat.lt_or_ge i q.length with hiq | hiq
    · have hne : (b.tail + i) % S ≠ b.head := by
        intro hEq
        rw [h.hhead] at hEq
        have := add_mod_inj (show i < S by omega)
          (show q.length < S by omega) hEq
        omega
      rw [getD_set_ne _ _ _ _ hne, h.helem i hiq,
        List.getD_append _ _ _ _ hiq]
    · have hieq : i = q.length := by omega
      subst hieq
      rw [← h.hhead,
        getD_set_self _ _ _ (by rw [h.hbuf, h.hhead]; exact Nat.mod_lt _ hS),
        List.getD_append_right _ _ _ _ (Nat.le_refl _)]
      simp

/-- Source `write` on a represented full full-flag buffer drops the oldest value
and appends the new one. -/
theorem flagRepr_write_full [Inhabited α] {b : FullFlagRingBuffer α S}
    {q : List α} (h : FlagRepr b q) (hL : q.length = S) (data : α) :
    FlagRepr (b.write data) (q.drop 1 ++ [data]) := by
  have hS : 0 < S := Nat.lt_of_le_of_lt (Nat.zero_le _) h.htail
  have hfl : b._full = true := by rw [h.hflag, hL]; simp
  have h12 : b.head = b.tail := by
    rw [h.hhead, hL]
    exact (Nat.add_mod_right _ _).trans (Nat.mod_eq_of_lt h.htail)
  rcases q with _ | ⟨y, q2⟩
  · simp only [List.length_nil] at hL
    omega
  have hq2 : q2.length = S - 1 := by
    simp only [List.length_cons] at hL
    omega
  have hlen : ((y :: q2).drop 1 ++ [data]).length = S := by
    simp only [List.drop_one, List.tail_cons, List.length_append,
      List.length_cons, List.length_nil]
    omega
  refine ⟨?_, ?_, ?_, ?_, ?_, ?_⟩
  · rw [flag_write_buf]
    simp [h.hbuf]
  · rw [flag_write_tail_of_full data hfl]
    exact Nat.mod_lt _ hS
  · rw [hlen]
  · rw [flag_write_flag_of_full data hfl, hlen, h12]
    simp
  · rw [flag_write_head, flag_write_tail_of_full data hfl, hlen, h12]
    show (b.tail + 1) % S = ((b.tail + 1) % S + S) % S
    exact ((Nat.add_mod_right _ _).trans
      (Nat.mod_eq_of_lt (Nat.mod_lt _ hS))).symm
  · intro i hi
    rw [hlen] at hi
    rw [flag_write_buf, flag_write_tail_of_full data hfl]
    show (b.buf.set b.head data).getD (((b.tail + 1) % S + i) % S) default
      = (q2 ++ [data]).getD i default
    rw [Nat.mod_add_mod]
    have h8 : b.tail + 1 + i = b.tail + (1 + i) := by omega
    rw [h8]
    rcases Nat.lt_or_ge i (S - 1) with hiq | hiq
    · have hne : (b.tail + (1 + i)) % S ≠ b.head := by
        intro hEq
        rw [h12] at hEq
        have := (add_mod_left_eq_iff h.htail
          (show 1 + i < S by omega)).mp hEq
        omega
      rw [getD_set_ne _ _ _ _ hne]
      have h9 := h.helem (1 + i) (by rw [hL]; omega)
      rw [h9]
      have hci : 1 + i = i + 1 := Nat.add_comm 1 i
      rw [hci]
      have h10 : (y :: q2).getD (i + 1) default = q2.getD i default := rfl
      rw [h10, List.getD_append _ _ _ _ (by omega)]
    · have hieq : i = S - 1 := by omega
      subst hieq
      have h11 : b.tail + (1 + (S - 1)) = b.tail + S := by omega
      rw [h11]
      have h13 : (b.tail + S) % S = b.head := by
        rw [h12]
        exact (Nat.add_mod_right _ _).trans (Nat.mod_eq_of_lt h.htail)
      rw [h13,
        getD_set_self _ _ _ (by rw [h.hbuf, h12]; exact h.htail),
        List.getD_append_right _ _ _ _ (by omega)]
      simp [hq2]

/-- Source `read` on a represented full-flag buffer matches the model read. -/
theorem flagRepr_read [Inhabited α] {b : FullFlagRingBuffer α S}
    {q : List α} (h : FlagRepr b q) :
    (b.read).1 = (RingModel.read (S := S) ⟨q⟩).1 ∧
    FlagRepr (b.read).2 (RingModel.read (S := S) ⟨q⟩).2.q := by
  have hS : 0 < S := Nat.lt_of_le_of_lt (Nat.zero_le _) h.htail
  rcases q with _ | ⟨y, q2⟩
  · have hemp : b.empty = true := by rw [flagEmpty_eq h]; simp
    rw [flag_read_of_empty hemp]
    exact ⟨rfl, h⟩
  · have hemp : b.empty = false := by rw [flagEmpty_eq h]; simp
    rw [flag_read_of_not_empty hemp]
    constructor
    · have h0 := h.helem 0 (by simp)
      have h0' : b.buf.getD (b.tail % S) default = y := h0
      rw [Nat.mod_eq_of_lt h.htail] at h0'
      rw [h0']
      rfl
    · refine ⟨h.hbuf, Nat.mod_lt _ hS, ?_, ?_, ?_, ?_⟩
      · show q2.length ≤ S
        have := h.hq
        simp only [List.length_cons] at this
        omega
      · show false = (q2.length == S)
        have hne : q2.length ≠ S := by
          have := h.hq
          simp only [List.length_cons] at this
          omega
        symm
        simp [hne]
      · show b.head = ((b.tail + 1) % S + q2.length) % S
        rw [Nat.mod_add_mod, h.hhead]
        have h3 : b.tail + (y :: q2).length = b.tail + 1 + q2.length := by
          simp only [List.length_cons]
          omega
        rw [h3]
      · intro i hi
        have hi2 : i < q2.length := hi
        show b.buf.getD (((b.tail + 1) % S + i) % S) default
          = q2.getD i default
        rw [Nat.mod_add_mod]
        have h6 : b.tail + 1 + i = b.tail + (i + 1) := by omega
        rw [h6]
        exact h.helem (i + 1) (by simp only [List.length_cons]; omega)

/-- Source `clear` on any full-flag buffer state represents the empty queue. -/
theorem flagRepr_clear [Inhabited α] {b : FullFlagRingBuffer α S}
    {q : List α} (h : FlagRepr b q) : FlagRepr b.clear [] := by
  have hS : 0 < S := Nat.lt_of_le_of_lt (Nat.zero_le _) h.htail
  refine ⟨h.hbuf, h.htail, by simp, ?_, ?_, ?_⟩
  · show false = (0 == S)
    symm
    simp
    omega
  · exact (Nat.mod_eq_of_lt h.htail).symm
  · intro i hi
    simp only [List.length_nil] at hi
    omega

/-!
Step-level and sequence-level simulation: both strategies produce the
same observable results as the abstract model on every call sequence.
-/

/-- One contract call on a represented guard-element buffer returns the
model's result and preserves representation. -/
theorem guardStep_sim [Inhabited α] {b : GuardElemRingBuffer α S}
    {q : List α} (h : GuardRepr b q) (hS : 1 ≤ S) (op : Op α) :
    (guardStep b op).1 = (modelStep (⟨q⟩ : RingModel α S) op).1 ∧
    GuardRepr (guardStep b op).2 (modelStep (⟨q⟩ : RingModel α S) op).2.q := by
  cases op with
  | readOp =>
    have hr := guardRepr_read h
    exact ⟨congrArg Out.oval hr.1, hr.2⟩
  | writeOp data =>
    refine ⟨rfl, ?_⟩
    show GuardRepr (b.write data) (RingModel.write ⟨q⟩ data).q
    by_cases hs : q.length = S
    · have hm : (RingModel.write (⟨q⟩ : RingModel α S) data).q
          = q.drop 1 ++ [data] := by
        simp [RingModel.write, hs]
      rw [hm]
      exact guardRepr_write_full h hs hS data
    · have hm : (RingModel.write (⟨q⟩ : RingModel α S) data).q
          = q ++ [data] := by
        simp [RingModel.write, hs]
      rw [hm]
      exact guardRepr_write_not_full h (by have := h.hq; omega) data
  | clearOp => exact ⟨rfl, guardRepr_clear h⟩
  | fullOp => exact ⟨congrArg Out.obool (guardFull_eq h), h⟩
  | emptyOp => exact ⟨congrArg Out.obool (guardEmpty_eq h), h⟩
  | sizeOp => exact ⟨congrArg Out.onat (guardSize_eq h), h⟩
  | capacityOp => exact ⟨rfl, h⟩

/-- One contract call on a represented full-flag buffer returns the
model's result and preserves representation. -/
theorem flagStep_sim [Inhabited α] {b : FullFlagRingBuffer α S}
    {q : List α} (h : FlagRepr b q) (op : Op α) :
    (flagStep b op).1 = (modelStep (⟨q⟩ : RingModel α S) op).1 ∧
    FlagRepr (flagStep b op).2 (modelStep (⟨q⟩ : RingModel α S) op).2.q := by
  cases op with
  | readOp =>
    have hr := flagRepr_read h
    exact ⟨congrArg Out.oval hr.1, hr.2⟩
  | writeOp data =>
    refine ⟨rfl, ?_⟩
    show FlagRepr (b.write data) (RingModel.write ⟨q⟩ data).q
    by_cases hs : q.length = S
    · have hm : (RingModel.write (⟨q⟩ : RingModel α S) data).q
        = q.drop 1 ++ [data] := by
        simp [RingModel.write, hs]
      rw [hm]
      exact flagRepr_write_full h hs data
    · have hm : (RingModel.write (⟨q⟩ : RingModel α S) data).q
        = q ++ [data] := by
        simp [RingModel.write, hs]
      rw [hm]
      exact flagRepr_write_not_full h (by have := h.hq; omega) data
  | clearOp => exact ⟨rfl, flagRepr_clear h⟩
  | fullOp => exact ⟨congrArg Out.obool (flagFull_eq h), h⟩
  | emptyOp => exact ⟨congrArg Out.obool (flagEmpty_eq h), h⟩
  | sizeOp => exact ⟨congrArg Out.onat (flagSize_eq h), h⟩
  | capacityOp => exact ⟨rfl, h⟩

/-- Results of a call sequence on a represented guard-element buffer
equal the model results. -/
theorem guardRun_sim [Inhabited α] {b : GuardElemRingBuffer α S}
    {q : List α} (h : GuardRepr b q) (hS : 1 ≤ S) (ops : List (Op α)) :
    guardRun b ops = modelRun (⟨q⟩ : RingModel α S) ops := by
  induction ops generalizing b q with
  | nil => rfl
  | cons op ops ih =>
    have hstep := guardStep_sim h hS op
    show (guardStep b op).1 :: guardRun (guardStep b op).2 ops
      = (modelStep ⟨q⟩ op).1 :: modelRun (modelStep ⟨q⟩ op).2 ops
    exact congrArg₂ List.cons hstep.1 (ih hstep.2)

/-- Results of a call sequence on a represented full-flag buffer equal
the model results. -/
theorem flagRun_sim [Inhabited α] {b : FullFlagRingBuffer α S}
    {q : List α} (h : FlagRepr b q) (ops : List (Op α)) :
    flagRun b ops = modelRun (⟨q⟩ : RingModel α S) ops := by
  induction ops generalizing b q with
  | nil => rfl
  | cons op ops ih =>
    have hstep := flagStep_sim h op
    show (flagStep b op).1 :: flagRun (flagStep b op).2 ops
      = (modelStep ⟨q⟩ op).1 :: modelRun (modelStep ⟨q⟩ op).2 ops
    exact congrArg₂ List.cons hstep.1 (ih hstep.2)

/-- Executing a call sequence preserves guard-element representation. -/
theorem guardExec_sim [Inhabited α] {b : GuardElemRingBuffer α S}
    {q : List α} (h : GuardRepr b q) (hS : 1 ≤ S) (ops : List (Op α)) :
    GuardRepr (guardExec b ops) (modelExec (⟨q⟩ : RingModel α S) ops).q := by
  induction ops generalizing b q with
  | nil => exact h
  | cons op ops ih => exact ih (guardStep_sim h hS op).2

/-- Executing a call sequence preserves full-flag representation. -/
theorem flagExec_sim [Inhabited α] {b : FullFlagRingBuffer α S}
    {q : List α} (h : FlagRepr b q) (ops : List (Op α)) :
    FlagRepr (flagExec b ops) (modelExec (⟨q⟩ : RingModel α S) ops).q := by
  induction ops generalizing b q with
  | nil => exact h
  | cons op ops ih => exact ih (flagStep_sim h op).2

/-- A sequence of `write` calls preserves guard-element representation. -/
theorem guardRepr_writes [Inhabited α] {b : GuardElemRingBuffer α S}
    {q : List α} (h : GuardRepr b q) (hS : 1 ≤ S) (ws : List α) :
    GuardRepr (b.writes ws) (RingModel.writes (⟨q⟩ : RingModel α S) ws).q := by
  induction ws generalizing b q with
  | nil => exact h
  | cons x ws ih => exact ih (guardStep_sim h hS (Op.writeOp x)).2

/-- A sequence of `write` calls preserves full-flag representation. -/
theorem flagRepr_writes [Inhabited α] {b : FullFlagRingBuffer α S}
    {q : List α} (h : FlagRepr b q) (ws : List α) :
    FlagRepr (b.writes ws) (RingModel.writes (⟨q⟩ : RingModel α S) ws).q := by
  induction ws generalizing b q with
  | nil => exact h
  | cons x ws ih => exact ih (flagStep_sim h (Op.writeOp x)).2

/-- A drain of `n` `read` calls on a represented guard-element buffer
returns the model drain results and preserves representation. -/
theorem guardRepr_reads [Inhabited α] {b : GuardElemRingBuffer α S}
    {q : List α} (h : GuardRepr b q) (n : Nat) :
    (b.reads n).1 = (RingModel.reads (⟨q⟩ : RingModel α S) n).1 ∧
    GuardRepr (b.reads n).2 (RingModel.reads (⟨q⟩ : RingModel α S) n).2.q := by
  induction n generalizing b q with
  | zero => exact ⟨rfl, h⟩
  | succ n ih =>
    have hr := guardRepr_read h
    have ih2 := ih hr.2
    exact ⟨congrArg₂ List.cons hr.1 ih2.1, ih2.2⟩

/-- A drain of `n` `read` calls on a represented full-flag buffer
returns the model drain results and preserves representation. -/
theorem flagRepr_reads [Inhabited α] {b : FullFlagRingBuffer α S}
    {q : List α} (h : FlagRepr b q) (n : Nat) :
    (b.reads n).1 = (RingModel.reads (⟨q⟩ : RingModel α S) n).1 ∧
    FlagRepr (b.reads n).2 (RingModel.reads (⟨q⟩ : RingModel α S) n).2.q := by
  induction n generalizing b q with
  | zero => exact ⟨rfl, h⟩
  | succ n ih =>
    have hr := flagRepr_read h
    have ih2 := ih hr.2
    exact ⟨congrArg₂ List.cons hr.1 ih2.1, ih2.2⟩

/-!
Model-level facts: what a write sequence and a drain do to the abstract
queue.
-/

/-- After a sequence of model writes, the queue holds the most recent
values: everything but the first `length - S` writes (relative to the
starting queue). -/
theorem ringModel_writes_q (hS : 1 ≤ S) (ws : List α) :
    ∀ q : List α, q.length ≤ S →
      (RingModel.writes (⟨q⟩ : RingModel α S) ws).q
        = (q ++ ws).drop (q.length + ws.length - S) := by
  induction ws with
  | nil =>
    intro q hq
    simp only [List.length_nil, List.append_nil]
    have h0 : q.length + 0 - S = 0 := by omega
    rw [h0]
    rfl
  | cons x ws ih =>
    intro q hq
    show (RingModel.writes (RingModel.write ⟨q⟩ x) ws).q
      = (q ++ x :: ws).drop (q.length + (x :: ws).length - S)
    by_cases hs : q.length = S
    · rcases q with _ | ⟨y, q2⟩
      · rw [List.length_nil] at hs
        omega
      · have hq2 : q2.length + 1 = S := by simpa using hs
        have hw : RingModel.write (⟨y :: q2⟩ : RingModel α S) x
            = ⟨q2 ++ [x]⟩ := by
          simp [RingModel.write, hs]
        rw [hw, ih _ (by simp only [List.length_append, List.length_cons,
          List.length_nil]; omega)]
        have e2 : (q2 ++ [x]).length + ws.length - S = ws.length := by
          simp only [List.length_append, List.length_cons, List.length_nil]
          omega
        have e3 : (y :: q2).length + (x :: ws).length - S
            = ws.length + 1 := by
          simp only [List.length_cons]
          omega
        rw [e2, e3, List.append_assoc]
        rfl
    · have hw : RingModel.write (⟨q⟩ : RingModel α S) x = ⟨q ++ [x]⟩ := by
        simp [RingModel.write, hs]
      rw [hw, ih _ (by simp only [List.length_append, List.length_cons,
        List.length_nil]; omega)]
      have e2 : (q ++ [x]).length + ws.length - S
          = q.length + (x :: ws).length - S := by
        simp only [List.length_append, List.length_cons, List.length_nil]
        omega
      rw [e2, List.append_assoc]
      rfl

/-- Draining `n ≤ length` model reads returns the first `n` queued
values (as present optionals) and leaves the rest. -/
theorem ringModel_reads_q (n : Nat) :
    ∀ q : List α, n ≤ q.length →
      RingModel.reads (⟨q⟩ : RingModel α S) n
        = ((q.take n).map some, (⟨q.drop n⟩ : RingModel α S)) := by
  induction n with
  | zero =>
    intro q hq
    rfl
  | succ n ih =>
    intro q hq
    rcases q with _ | ⟨y, q2⟩
    · simp at hq
    · have ih2 := ih q2 (by simp only [List.length_cons] at hq; omega)
      show (some y :: (RingModel.reads (⟨q2⟩ : RingModel α S) n).1,
        (RingModel.reads (⟨q2⟩ : RingModel α S) n).2)
        = (((y :: q2).take (n + 1)).map some, ⟨(y :: q2).drop (n + 1)⟩)
      rw [ih2]
      rfl

/-- A model write always leaves at least one pending value. -/
theorem ringModel_write_length_pos (m : RingModel α S) (data : α) :
    1 ≤ (m.write data).q.length := by
  simp only [RingModel.write]
  split <;> simp

/-- Reading a represented non-empty guard-element buffer yields a
present optional. -/
theorem guardRepr_read_isSome [Inhabited α] {b : GuardElemRingBuffer α S}
    {q : List α} (h : GuardRepr b q) (hq : 1 ≤ q.length) :
    ((b.read).1).isSome = true := by
  rcases q with _ | ⟨y, q2⟩
  · simp at hq
  · rw [(guardRepr_read h).1]
    rfl

/-- Reading a represented non-empty full-flag buffer yields a present
optional. -/
theorem flagRepr_read_isSome [Inhabited α] {b : FullFlagRingBuffer α S}
    {q : List α} (h : FlagRepr b q) (hq : 1 ≤ q.length) :
    ((b.read).1).isSome = true := by
  rcases q with _ | ⟨y, q2⟩
  · simp at hq
  · rw [(flagRepr_read h).1]
    rfl

/-- After a full-flag `write`, the cursors can only coincide when the
buffer has become exactly full. -/
theorem flag_write_head_eq_tail_full [Inhabited α]
    {b : FullFlagRingBuffer α S} {q : List α} (h : FlagRepr b q) (data : α)
    (hht : (b.write data).head = (b.write data).tail) :
    (b.write data)._full = true ∧ (b.write data).size = S := by
  have hw : FlagRepr (b.write data)
      (RingModel.write (⟨q⟩ : RingModel α S) data).q :=
    (flagStep_sim h (Op.writeOp data)).2
  have hq1 : 1 ≤ (RingModel.write (⟨q⟩ : RingModel α S) data).q.length :=
    ringModel_write_length_pos _ data
  have hL : (RingModel.write (⟨q⟩ : RingModel α S) data).q.length = S := by
    by_cases hcase :
        (RingModel.write (⟨q⟩ : RingModel α S) data).q.length = S
    · exact hcase
    · have hEq : ((b.write data).tail
          + (RingModel.write (⟨q⟩ : RingModel α S) data).q.length) % S
          = (b.write data).tail := by
        rw [← hw.hhead]
        exact hht
      have := (add_mod_left_eq_iff hw.htail
        (Nat.lt_of_le_of_ne hw.hq hcase)).mp hEq
      omega
  constructor
  · rw [hw.hflag, hL]
    simp
  · rw [flagSize_eq hw, hL]

/-!
Claim theorems.
-/

/-- C1: for every nominal capacity `C ≥ 1` and every sequence of
`N ≤ C` writes applied to an initially empty buffer of either strategy,
`size()` returns `N`, `full()` returns true exactly when `N = C`, and a
subsequent sequence of `N` reads returns exactly the `N` written values
in write order, leaving the buffer empty. -/
theorem claim1_writes_within_capacity {α : Type} [Inhabited α] (S : Nat)
    (hS : 1 ≤ S) (ws : List α) (hws : ws.length ≤ S) :
    ((GuardElemRingBuffer.init (α := α) S).writes ws).size = ws.length ∧
    (((GuardElemRingBuffer.init (α := α) S).writes ws).full = true ↔
      ws.length = S) ∧
    (((GuardElemRingBuffer.init (α := α) S).writes ws).reads ws.length).1
      = ws.map some ∧
    ((((GuardElemRingBuffer.init (α := α) S).writes ws).reads
      ws.length).2).empty = true ∧
    ((FullFlagRingBuffer.init (α := α) S).writes ws).size = ws.length ∧
    (((FullFlagRingBuffer.init (α := α) S).writes ws).full = true ↔
      ws.length = S) ∧
    (((FullFlagRingBuffer.init (α := α) S).writes ws).reads ws.length).1
      = ws.map some ∧
    ((((FullFlagRingBuffer.init (α := α) S).writes ws).reads
      ws.length).2).empty = true := by
  have hq : (RingModel.writes (⟨[]⟩ : RingModel α S) ws).q = ws := by
    rw [ringModel_writes_q hS ws [] (by simp)]
    simp only [List.nil_append, List.length_nil]
    have h0 : 0 + ws.length - S = 0 := by omega
    rw [h0]
    rfl
  have hrm := ringModel_reads_q (S := S) (α := α) ws.length ws (Nat.le_refl _)
  have hw : GuardRepr ((GuardElemRingBuffer.init (α := α) S).writes ws)
      ws := by
    have h1 := guardRepr_writes (guardRepr_init S) hS ws
    rwa [hq] at h1
  have hr := guardRepr_reads hw ws.length
  have hrg1 : (((GuardElemRingBuffer.init (α := α) S).writes ws).reads
      ws.length).1 = ws.map some := by
    rw [hr.1, hrm]
    simp
  have hrg2 : GuardRepr ((((GuardElemRingBuffer.init (α := α) S).writes
      ws).reads ws.length).2) [] := by
    have h2 := hr.2
    rw [hrm] at h2
    have h3 : (((ws.take ws.length).map some,
        (⟨ws.drop ws.length⟩ : RingModel α S)).2).q = [] := by
      simp
    rwa [h3] at h2
  have hwf : FlagRepr ((FullFlagRingBuffer.init (α := α) S).writes ws)
      ws := by
    have h1 := flagRepr_writes (flagRepr_init S hS) ws
    rwa [hq] at h1
  have hrf := flagRepr_reads hwf ws.length
  have hrf1 : (((FullFlagRingBuffer.init (α := α) S).writes ws).reads
      ws.length).1 = ws.map some := by
    rw [hrf.1, hrm]
    simp
  have hrf2 : FlagRepr ((((FullFlagRingBuffer.init (α := α) S).writes
      ws).reads ws.length).2) [] := by
    have h2 := hrf.2
    rw [hrm] at h2
    have h3 : (((ws.take ws.length).map some,
        (⟨ws.drop ws.length⟩ : RingModel α S)).2).q = [] := by
      simp
    rwa [h3] at h2
  refine ⟨guardSize_eq hw, ?_, hrg1, ?_, flagSize_eq hwf, ?_, hrf1, ?_⟩
  · rw [guardFull_eq hw]
    exact beq_iff_eq
  · rw [guardEmpty_eq hrg2]
    rfl
  · rw [flagFull_eq hwf]
    exact beq_iff_eq
  · rw [flagEmpty_eq hrf2]
    rfl

/-- C1 witness: capacity 2, two writes. -/
theorem claim1_witness :
    1 ≤ 2 ∧ ([10, 20] : List Nat).length ≤ 2 ∧
    (((GuardElemRingBuffer.init (α := Nat) 2).writes [10, 20]).size
        = ([10, 20] : List Nat).length ∧
    (((GuardElemRingBuffer.init (α := Nat) 2).writes [10, 20]).full = true ↔
      ([10, 20] : List Nat).length = 2) ∧
    (((GuardElemRingBuffer.init (α := Nat) 2).writes [10, 20]).reads
      ([10, 20] : List Nat).length).1 = [10, 20].map some ∧
    ((((GuardElemRingBuffer.init (α := Nat) 2).writes [10, 20]).reads
      ([10, 20] : List Nat).length).2).empty = true ∧
    ((FullFlagRingBuffer.init (α := Nat) 2).writes [10, 20]).size
        = ([10, 20] : List Nat).length ∧
    (((FullFlagRingBuffer.init (α := Nat) 2).writes [10, 20]).full = true ↔
      ([10, 20] : List Nat).length = 2) ∧
    (((FullFlagRingBuffer.init (α := Nat) 2).writes [10, 20]).reads
      ([10, 20] : List Nat).length).1 = [10, 20].map some ∧
    ((((FullFlagRingBuffer.init (α := Nat) 2).writes [10, 20]).reads
      ([10, 20] : List Nat).length).2).empty = true) :=
  ⟨by decide, by decide,
   claim1_writes_within_capacity 2 (by decide) [10, 20] (by decide)⟩

/-- C2: for every nominal capacity `C ≥ 1` and every sequence of
`N > C` writes applied to an initially empty buffer of either strategy,
`size()` returns `C` afterwards, draining with `C` reads yields exactly
the last `C` written values in write order (those from the
`(N - C + 1)`-th write on), and each write into a full buffer advances
the tail cursor one position (discarding the oldest element) while the
head cursor advances one position. -/
theorem claim2_overwrite_on_full {α : Type} [Inhabited α] (S : Nat)
    (hS : 1 ≤ S) (ws : List α) (hws : S < ws.length) :
    ((GuardElemRingBuffer.init (α := α) S).writes ws).size = S ∧
    (((GuardElemRingBuffer.init (α := α) S).writes ws).reads S).1
      = (ws.drop (ws.length - S)).map some ∧
    ((FullFlagRingBuffer.init (α := α) S).writes ws).size = S ∧
    (((FullFlagRingBuffer.init (α := α) S).writes ws).reads S).1
      = (ws.drop (ws.length - S)).map some ∧
    (∀ b : GuardElemRingBuffer α S, b.full = true → ∀ data : α,
      (b.write data).tail = guardIdxIncrement S b.tail ∧
      (b.write data).head = guardIdxIncrement S b.head) ∧
    (∀ b : FullFlagRingBuffer α S, b.full = true → ∀ data : α,
      (b.write data).tail = flagIdxIncrement S b.tail ∧
      (b.write data).head = flagIdxIncrement S b.head) := by
  have hq : (RingModel.writes (⟨[]⟩ : RingModel α S) ws).q
      = ws.drop (ws.length - S) := by
    rw [ringModel_writes_q hS ws [] (by simp)]
    simp only [List.nil_append, List.length_nil]
    have h0 : 0 + ws.length - S = ws.length - S := by omega
    rw [h0]
  have hlen : (ws.drop (ws.length - S)).length = S := by
    rw [List.length_drop]
    omega
  have hrm := ringModel_reads_q (S := S) (α := α) S (ws.drop (ws.length - S))
    (by rw [hlen])
  have htake : (ws.drop (ws.length - S)).take S = ws.drop (ws.length - S) :=
    List.take_of_length_le (Nat.le_of_eq hlen)
  have hw : GuardRepr ((GuardElemRingBuffer.init (α := α) S).writes ws)
      (ws.drop (ws.length - S)) := by
    have h1 := guardRepr_writes (guardRepr_init S) hS ws
    rwa [hq] at h1
  have hwf : FlagRepr ((FullFlagRingBuffer.init (α := α) S).writes ws)
      (ws.drop (ws.length - S)) := by
    have h1 := flagRepr_writes (flagRepr_init S hS) ws
    rwa [hq] at h1
  refine ⟨?_, ?_, ?_, ?_, ?_, ?_⟩
  · rw [guardSize_eq hw, hlen]
  · rw [(guardRepr_reads hw S).1, hrm]
    simp only [htake]
  · rw [flagSize_eq hwf, hlen]
  · rw [(flagRepr_reads hwf S).1, hrm]
    simp only [htake]
  · intro b hf data
    have hf2 : guardIdxIncrement S b.head = b.tail := by
      simpa [GuardElemRingBuffer.full] using hf
    exact ⟨guard_write_tail_of_full data hf2, rfl⟩
  · intro b hf data
    have hf2 : b._full = true := hf
    exact ⟨flag_write_tail_of_full data hf2, rfl⟩

/-- C2 witness: capacity 2, five writes; the drain yields the last two. -/
theorem claim2_witness :
    1 ≤ 2 ∧ 2 < ([1, 2, 3, 4, 5] : List Nat).length ∧
    (((GuardElemRingBuffer.init (α := Nat) 2).writes [1, 2, 3, 4, 5]).size
        = 2 ∧
    (((GuardElemRingBuffer.init (α := Nat) 2).writes [1, 2, 3, 4, 5]).reads
        2).1
      = (([1, 2, 3, 4, 5] : List Nat).drop
          (([1, 2, 3, 4, 5] : List Nat).length - 2)).map some ∧
    ((FullFlagRingBuffer.init (α := Nat) 2).writes [1, 2, 3, 4, 5]).size
        = 2 ∧
    (((FullFlagRingBuffer.init (α := Nat) 2).writes [1, 2, 3, 4, 5]).reads
        2).1
      = (([1, 2, 3, 4, 5] : List Nat).drop
          (([1, 2, 3, 4, 5] : List Nat).length - 2)).map some ∧
    (∀ b : GuardElemRingBuffer Nat 2, b.full = true → ∀ data : Nat,
      (b.write data).tail = guardIdxIncrement 2 b.tail ∧
      (b.write data).head = guardIdxIncrement 2 b.head) ∧
    (∀ b : FullFlagRingBuffer Nat 2, b.full = true → ∀ data : Nat,
      (b.write data).tail = flagIdxIncrement 2 b.tail ∧
      (b.write data).head = flagIdxIncrement 2 b.head)) :=
  ⟨by decide, by decide,
   claim2_overwrite_on_full 2 (by decide) [1, 2, 3, 4, 5] (by decide)⟩

/-- C3: for every nominal capacity `C ≥ 1` and every finite sequence of
contract calls applied from the initial state, the two strategies
produce identical observable results at every call (observational
equivalence). -/
theorem claim3_observational_equivalence {α : Type} [Inhabited α]
    (S : Nat) (hS : 1 ≤ S) (ops : List (Op α)) :
    guardRun (GuardElemRingBuffer.init (α := α) S) ops
      = flagRun (FullFlagRingBuffer.init (α := α) S) ops := by
  rw [guardRun_sim (guardRepr_init S) hS ops,
    flagRun_sim (flagRepr_init S hS) ops]

/-- C3 witness: a mixed call sequence on capacity 2. -/
theorem claim3_witness :
    1 ≤ 2 ∧
    guardRun (GuardElemRingBuffer.init (α := Nat) 2)
      [.writeOp 7, .sizeOp, .writeOp 8, .writeOp 9, .fullOp, .readOp,
       .emptyOp, .readOp, .readOp, .clearOp, .emptyOp, .capacityOp]
    = flagRun (FullFlagRingBuffer.init (α := Nat) 2)
      [.writeOp 7, .sizeOp, .writeOp 8, .writeOp 9, .fullOp, .readOp,
       .emptyOp, .readOp, .readOp, .clearOp, .emptyOp, .capacityOp] :=
  ⟨by decide,
   claim3_observational_equivalence 2 (by decide)
     [.writeOp 7, .sizeOp, .writeOp 8, .writeOp 9, .fullOp, .readOp,
      .emptyOp, .readOp, .readOp, .clearOp, .emptyOp, .capacityOp]⟩

/-- C4: in every state reachable by a call sequence from a fresh buffer
of either strategy with nominal capacity `C ≥ 1`, `size()` is between
`0` and `capacity()` and equals exactly the number of
written-but-not-yet-consumed surviving elements (the pending queue of
the abstract model run on the same calls). -/
theorem claim4_size_invariant {α : Type} [Inhabited α] (S : Nat)
    (hS : 1 ≤ S) (ops : List (Op α)) :
    (guardExec (GuardElemRingBuffer.init (α := α) S) ops).size
      = (modelExec (RingModel.init (α := α) S) ops).q.length ∧
    (guardExec (GuardElemRingBuffer.init (α := α) S) ops).size
      ≤ (guardExec (GuardElemRingBuffer.init (α := α) S) ops).capacity ∧
    (flagExec (FullFlagRingBuffer.init (α := α) S) ops).size
      = (modelExec (RingModel.init (α := α) S) ops).q.length ∧
    (flagExec (FullFlagRingBuffer.init (α := α) S) ops).size
      ≤ (flagExec (FullFlagRingBuffer.init (α := α) S) ops).capacity := by
  have hg := guardExec_sim (guardRepr_init (α := α) S) hS ops
  have hf := flagExec_sim (flagRepr_init (α := α) S hS) ops
  refine ⟨guardSize_eq hg, ?_, flagSize_eq hf, ?_⟩
  · rw [guardSize_eq hg]
    exact hg.hq
  · rw [flagSize_eq hf]
    exact hf.hq

/-- C4 witness: a concrete call sequence on capacity 2. -/
theorem claim4_witness :
    1 ≤ 2 ∧
    ((guardExec (GuardElemRingBuffer.init (α := Nat) 2)
        [.writeOp 3, .writeOp 4, .writeOp 5, .readOp, .writeOp 6]).size
      = (modelExec (RingModel.init (α := Nat) 2)
        [.writeOp 3, .writeOp 4, .writeOp 5, .readOp, .writeOp 6]).q.length ∧
    (guardExec (GuardElemRingBuffer.init (α := Nat) 2)
        [.writeOp 3, .writeOp 4, .writeOp 5, .readOp, .writeOp 6]).size
      ≤ (guardExec (GuardElemRingBuffer.init (α := Nat) 2)
        [.writeOp 3, .writeOp 4, .writeOp 5, .readOp, .writeOp 6]).capacity ∧
    (flagExec (FullFlagRingBuffer.init (α := Nat) 2)
        [.writeOp 3, .writeOp 4, .writeOp 5, .readOp, .writeOp 6]).size
      = (modelExec (RingModel.init (α := Nat) 2)
        [.writeOp 3, .writeOp 4, .writeOp 5, .readOp, .writeOp 6]).q.length ∧
    (flagExec (FullFlagRingBuffer.init (α := Nat) 2)
        [.writeOp 3, .writeOp 4, .writeOp 5, .readOp, .writeOp 6]).size
      ≤ (flagExec (FullFlagRingBuffer.init (α := Nat) 2)
        [.writeOp 3, .writeOp 4, .writeOp 5, .readOp, .writeOp 6]).capacity) :=
  ⟨by decide,
   claim4_size_invariant 2 (by decide)
     [.writeOp 3, .writeOp 4, .writeOp 5, .readOp, .writeOp 6]⟩

/-- C5 counterexample: the round-trip claim fails on a reachable
non-empty, non-full state.  With capacity 2 and one value already
pending, writing `2` and then immediately reading returns the older
pending value `1`, not the just-written `2` — on both strategies. -/
theorem claim5_counterexample :
    ((((GuardElemRingBuffer.init (α := Nat) 2).write 1).write 2).read).1
        = some 1 ∧
    ((((FullFlagRingBuffer.init (α := Nat) 2).write 1).write 2).read).1
        = some 1 ∧
    some 1 ≠ some 2 := by
  refine ⟨rfl, rfl, by decide⟩

/-- C5 (amended): for every reachable state of either strategy that is
empty, and every value `v`, calling `write(v)` and then immediately
`read()` returns `v`.  (In general `read` returns the oldest surviving
element, so the round trip only holds from an empty buffer.) -/
theorem claim5_roundtrip_from_empty {α : Type} [Inhabited α] (S : Nat)
    (hS : 1 ≤ S) (ops : List (Op α)) (v : α) :
    ((guardExec (GuardElemRingBuffer.init (α := α) S) ops).empty = true →
      (((guardExec (GuardElemRingBuffer.init (α := α) S) ops).write
        v).read).1 = some v) ∧
    ((flagExec (FullFlagRingBuffer.init (α := α) S) ops).empty = true →
      (((flagExec (FullFlagRingBuffer.init (α := α) S) ops).write
        v).read).1 = some v) := by
  have hg := guardExec_sim (guardRepr_init (α := α) S) hS ops
  have hf := flagExec_sim (flagRepr_init (α := α) S hS) ops
  constructor
  · intro he
    rw [guardEmpty_eq hg] at he
    have h0 : (modelExec (⟨[]⟩ : RingModel α S) ops).q = [] :=
      List.length_eq_zero.mp (by simpa using he)
    have hg2 : GuardRepr
        (guardExec (GuardElemRingBuffer.init (α := α) S) ops) [] := by
      rwa [h0] at hg
    have hw : GuardRepr
        ((guardExec (GuardElemRingBuffer.init (α := α) S) ops).write v)
        [v] :=
      guardRepr_write_not_full hg2
        (by simp only [List.length_nil]; omega) v
    rw [(guardRepr_read hw).1]
    rfl
  · intro he
    rw [flagEmpty_eq hf] at he
    have h0 : (modelExec (⟨[]⟩ : RingModel α S) ops).q = [] :=
      List.length_eq_zero.mp (by simpa using he)
    have hf2 : FlagRepr
        (flagExec (FullFlagRingBuffer.init (α := α) S) ops) [] := by
      rwa [h0] at hf
    have hw : FlagRepr
        ((flagExec (FullFlagRingBuffer.init (α := α) S) ops).write v)
        [v] :=
      flagRepr_write_not_full hf2
        (by simp only [List.length_nil]; omega) v
    rw [(flagRepr_read hw).1]
    rfl

/-- C5 witness: the empty initial buffer of capacity 1, value 42. -/
theorem claim5_witness :
    1 ≤ 1 ∧
    (guardExec (GuardElemRingBuffer.init (α := Nat) 1) []).empty = true ∧
    (((guardExec (GuardElemRingBuffer.init (α := Nat) 1) []).write
      42).read).1 = some 42 ∧
    (flagExec (FullFlagRingBuffer.init (α := Nat) 1) []).empty = true ∧
    (((flagExec (FullFlagRingBuffer.init (α := Nat) 1) []).write
      42).read).1 = some 42 :=
  ⟨by decide, by decide,
   (claim5_roundtrip_from_empty 1 (by decide) [] 42).1 (by decide),
   by decide,
   (claim5_roundtrip_from_empty 1 (by decide) [] 42).2 (by decide)⟩

/-- C6 counterexample: `clear()` does not leave the head cursor
unchanged.  After one write the head cursor is 1; `clear()` executes
`head = tail`, moving it back to 0 — in both strategies. -/
theorem claim6_counterexample :
    ((GuardElemRingBuffer.init (α := Nat) 1).write 5).clear.head
      ≠ ((GuardElemRingBuffer.init (α := Nat) 1).write 5).head ∧
    ((FullFlagRingBuffer.init (α := Nat) 2).write 5).clear.head
      ≠ ((FullFlagRingBuffer.init (α := Nat) 2).write 5).head := by
  decide

/-- C6 (amended): for every buffer state of either strategy with
nominal capacity `C ≥ 1`, `clear()` resets the buffer to the empty
state in one step by setting head equal to tail, leaving the tail
cursor and the storage unchanged, and, in the full-flag strategy,
setting the full flag to false; afterwards `empty()` is true and
`size()` is 0. -/
theorem claim6_clear_resets {α : Type} [Inhabited α] (S : Nat)
    (hS : 1 ≤ S) (b : GuardElemRingBuffer α S)
    (f : FullFlagRingBuffer α S) :
    b.clear.head = b.tail ∧ b.clear.tail = b.tail ∧
    b.clear.buf = b.buf ∧ b.clear.empty = true ∧ b.clear.size = 0 ∧
    f.clear.head = f.tail ∧ f.clear.tail = f.tail ∧
    f.clear.buf = f.buf ∧ f.clear._full = false ∧
    f.clear.empty = true ∧ f.clear.size = 0 := by
  have hfull : b.clear.full = false := by
    simp only [GuardElemRingBuffer.full, GuardElemRingBuffer.clear,
      guardIdxIncrement]
    rw [beq_eq_false_iff_ne]
    intro hEq
    have ht : b.tail < S + 1 := by
      rw [← hEq]
      exact Nat.mod_lt _ (Nat.succ_pos S)
    have := (add_mod_left_eq_iff ht (by omega)).mp hEq
    omega
  refine ⟨rfl, rfl, rfl, ?_, ?_, rfl, rfl, rfl, rfl, ?_, ?_⟩
  · simp [GuardElemRingBuffer.empty, GuardElemRingBuffer.clear]
  · have h1 : b.clear.size = if b.clear.full then b.clear.capacity
        else if b.clear.tail ≤ b.clear.head
        then b.clear.head - b.clear.tail
        else (S + 1 + b.clear.head) - b.clear.tail := rfl
    rw [h1, hfull]
    simp [GuardElemRingBuffer.clear]
  · simp [FullFlagRingBuffer.empty, FullFlagRingBuffer.clear]
  · simp [FullFlagRingBuffer.size, FullFlagRingBuffer.clear]

/-- C6 witness: capacity 1 buffers after one write. -/
theorem claim6_witness :
    1 ≤ 1 ∧
    (((GuardElemRingBuffer.init (α := Nat) 1).write 5).clear.head
        = ((GuardElemRingBuffer.init (α := Nat) 1).write 5).tail ∧
    ((GuardElemRingBuffer.init (α := Nat) 1).write 5).clear.tail
        = ((GuardElemRingBuffer.init (α := Nat) 1).write 5).tail ∧
    ((GuardElemRingBuffer.init (α := Nat) 1).write 5).clear.buf
        = ((GuardElemRingBuffer.init (α := Nat) 1).write 5).buf ∧
    ((GuardElemRingBuffer.init (α := Nat) 1).write 5).clear.empty = true ∧
    ((GuardElemRingBuffer.init (α := Nat) 1).write 5).clear.size = 0 ∧
    ((FullFlagRingBuffer.init (α := Nat) 1).write 5).clear.head
        = ((FullFlagRingBuffer.init (α := Nat) 1).write 5).tail ∧
    ((FullFlagRingBuffer.init (α := Nat) 1).write 5).clear.tail
        = ((FullFlagRingBuffer.init (α := Nat) 1).write 5).tail ∧
    ((FullFlagRingBuffer.init (α := Nat) 1).write 5).clear.buf
        = ((FullFlagRingBuffer.init (α := Nat) 1).write 5).buf ∧
    ((FullFlagRingBuffer.init (α := Nat) 1).write 5).clear._full = false ∧
    ((FullFlagRingBuffer.init (α := Nat) 1).write 5).clear.empty = true ∧
    ((FullFlagRingBuffer.init (α := Nat) 1).write 5).clear.size = 0) :=
  ⟨by decide,
   claim6_clear_resets 1 (by decide)
     ((GuardElemRingBuffer.init (α := Nat) 1).write 5)
     ((FullFlagRingBuffer.init (α := Nat) 1).write 5)⟩

/-- C7: in every reachable state of `GuardElemRingBuffer` with nominal
capacity `C ≥ 1`: `empty()` is true iff `head = tail`, `full()` is true
iff `(head + 1) % (C + 1) = tail`, and the two conditions never hold
simultaneously. -/
theorem claim7_guard_cursor_invariants {α : Type} [Inhabited α] (S : Nat)
    (hS : 1 ≤ S) (ops : List (Op α)) :
    ((guardExec (GuardElemRingBuffer.init (α := α) S) ops).empty = true ↔
      (guardExec (GuardElemRingBuffer.init (α := α) S) ops).head
        = (guardExec (GuardElemRingBuffer.init (α := α) S) ops).tail) ∧
    ((guardExec (GuardElemRingBuffer.init (α := α) S) ops).full = true ↔
      ((guardExec (GuardElemRingBuffer.init (α := α) S) ops).head + 1)
          % (S + 1)
        = (guardExec (GuardElemRingBuffer.init (α := α) S) ops).tail) ∧
    ¬ ((guardExec (GuardElemRingBuffer.init (α := α) S) ops).empty = true ∧
       (guardExec (GuardElemRingBuffer.init (α := α) S) ops).full
         = true) := by
  have hg := guardExec_sim (guardRepr_init (α := α) S) hS ops
  refine ⟨?_, ?_, ?_⟩
  · simp [GuardElemRingBuffer.empty]
  · simp [GuardElemRingBuffer.full, guardIdxIncrement]
  · rintro ⟨he, hfu⟩
    rw [guardEmpty_eq hg] at he
    rw [guardFull_eq hg] at hfu
    have h1 : (modelExec (⟨[]⟩ : RingModel α S) ops).q.length = 0 := by
      simpa using he
    have h2 : (modelExec (⟨[]⟩ : RingModel α S) ops).q.length = S := by
      simpa using hfu
    omega

/-- C7 witness: one write on capacity 2. -/
theorem claim7_witness :
    1 ≤ 2 ∧
    (((guardExec (GuardElemRingBuffer.init (α := Nat) 2)
        [.writeOp 3]).empty = true ↔
      (guardExec (GuardElemRingBuffer.init (α := Nat) 2)
        [.writeOp 3]).head
        = (guardExec (GuardElemRingBuffer.init (α := Nat) 2)
          [.writeOp 3]).tail) ∧
    ((guardExec (GuardElemRingBuffer.init (α := Nat) 2)
        [.writeOp 3]).full = true ↔
      ((guardExec (GuardElemRingBuffer.init (α := Nat) 2)
        [.writeOp 3]).head + 1) % (2 + 1)
        = (guardExec (GuardElemRingBuffer.init (α := Nat) 2)
          [.writeOp 3]).tail) ∧
    ¬ ((guardExec (GuardElemRingBuffer.init (α := Nat) 2)
        [.writeOp 3]).empty = true ∧
       (guardExec (GuardElemRingBuffer.init (α := Nat) 2)
        [.writeOp 3]).full = true)) :=
  ⟨by decide, claim7_guard_cursor_invariants 2 (by decide) [.writeOp 3]⟩

/-- C8: in every reachable state of `FullFlagRingBuffer` with nominal
capacity `C ≥ 1`, the flag `_full` is true iff the buffer holds exactly
`C` live (written-but-not-consumed) elements; after any write,
`head = tail` forces the buffer to be exactly full (so recomputing the
flag as `head == tail` is valid); and after any successful read the
flag is false. -/
theorem claim8_full_flag_invariant {α : Type} [Inhabited α] (S : Nat)
    (hS : 1 ≤ S) (ops : List (Op α)) (data : α) :
    ((flagExec (FullFlagRingBuffer.init (α := α) S) ops)._full = true ↔
      (modelExec (⟨[]⟩ : RingModel α S) ops).q.length = S) ∧
    (((flagExec (FullFlagRingBuffer.init (α := α) S) ops).write data).head
        = ((flagExec (FullFlagRingBuffer.init (α := α) S) ops).write
          data).tail →
      ((flagExec (FullFlagRingBuffer.init (α := α) S) ops).write
        data)._full = true ∧
      ((flagExec (FullFlagRingBuffer.init (α := α) S) ops).write
        data).size = S) ∧
    (((flagExec (FullFlagRingBuffer.init (α := α) S) ops).read).1.isSome
        = true →
      ((flagExec (FullFlagRingBuffer.init (α := α) S) ops).read).2._full
        = false) := by
  have hf := flagExec_sim (flagRepr_init (α := α) S hS) ops
  refine ⟨?_, ?_, ?_⟩
  · rw [hf.hflag]
    exact beq_iff_eq
  · intro hht
    exact flag_write_head_eq_tail_full hf data hht
  · intro hsome
    by_cases hemp :
        (flagExec (FullFlagRingBuffer.init (α := α) S) ops).empty = true
    · rw [flag_read_of_empty hemp] at hsome
      simp at hsome
    · have hemp2 :
          (flagExec (FullFlagRingBuffer.init (α := α) S) ops).empty
            = false :=
        Bool.eq_false_iff.mpr hemp
      rw [flag_read_of_not_empty hemp2]

/-- C8 witness: capacity 1, the write filling the buffer. -/
theorem claim8_witness :
    1 ≤ 1 ∧
    (((flagExec (FullFlagRingBuffer.init (α := Nat) 1) [])._full = true ↔
      (modelExec (⟨[]⟩ : RingModel Nat 1) []).q.length = 1) ∧
    (((flagExec (FullFlagRingBuffer.init (α := Nat) 1) []).write 9).head
        = ((flagExec (FullFlagRingBuffer.init (α := Nat) 1) []).write
          9).tail →
      ((flagExec (FullFlagRingBuffer.init (α := Nat) 1) []).write
        9)._full = true ∧
      ((flagExec (FullFlagRingBuffer.init (α := Nat) 1) []).write
        9).size = 1) ∧
    (((flagExec (FullFlagRingBuffer.init (α := Nat) 1) []).read).1.isSome
        = true →
      ((flagExec (FullFlagRingBuffer.init (α := Nat) 1) []).read).2._full
        = false)) :=
  ⟨by decide, claim8_full_flag_invariant 1 (by decide) [] 9⟩

/-- C10: immediately after any `write` on a reachable buffer of either
strategy with nominal capacity `C ≥ 1`, the buffer is not empty:
`empty()` returns false and a subsequent `read()` returns a present
value. -/
theorem claim10_write_leaves_nonempty {α : Type} [Inhabited α] (S : Nat)
    (hS : 1 ≤ S) (ops : List (Op α)) (data : α) :
    ((guardExec (GuardElemRingBuffer.init (α := α) S) ops).write
      data).empty = false ∧
    ((((guardExec (GuardElemRingBuffer.init (α := α) S) ops).write
      data).read).1).isSome = true ∧
    ((flagExec (FullFlagRingBuffer.init (α := α) S) ops).write
      data).empty = false ∧
    ((((flagExec (FullFlagRingBuffer.init (α := α) S) ops).write
      data).read).1).isSome = true := by
  have hg := guardExec_sim (guardRepr_init (α := α) S) hS ops
  have hf := flagExec_sim (flagRepr_init (α := α) S hS) ops
  have hgw : GuardRepr
      ((guardExec (GuardElemRingBuffer.init (α := α) S) ops).write data)
      (RingModel.write (⟨(modelExec (⟨[]⟩ : RingModel α S) ops).q⟩ :
        RingModel α S) data).q :=
    (guardStep_sim hg hS (Op.writeOp data)).2
  have hfw : FlagRepr
      ((flagExec (FullFlagRingBuffer.init (α := α) S) ops).write data)
      (RingModel.write (⟨(modelExec (⟨[]⟩ : RingModel α S) ops).q⟩ :
        RingModel α S) data).q :=
    (flagStep_sim hf (Op.writeOp data)).2
  have hpos : 1 ≤ (RingModel.write
      (⟨(modelExec (⟨[]⟩ : RingModel α S) ops).q⟩ : RingModel α S)
      data).q.length :=
    ringModel_write_length_pos _ data
  refine ⟨?_, ?_, ?_, ?_⟩
  · rw [guardEmpty_eq hgw, beq_eq_false_iff_ne]
    omega
  · exact guardRepr_read_isSome hgw hpos
  · rw [flagEmpty_eq hfw, beq_eq_false_iff_ne]
    omega
  · exact flagRepr_read_isSome hfw hpos

/-- C10 witness: a write onto the already full capacity-1 buffer. -/
theorem claim10_witness :
    1 ≤ 1 ∧
    (((guardExec (GuardElemRingBuffer.init (α := Nat) 1)
        [.writeOp 4]).write 5).empty = false ∧
    ((((guardExec (GuardElemRingBuffer.init (α := Nat) 1)
        [.writeOp 4]).write 5).read).1).isSome = true ∧
    ((flagExec (FullFlagRingBuffer.init (α := Nat) 1)
        [.writeOp 4]).write 5).empty = false ∧
    ((((flagExec (FullFlagRingBuffer.init (α := Nat) 1)
        [.writeOp 4]).write 5).read).1).isSome = true) :=
  ⟨by decide, claim10_write_leaves_nonempty 1 (by decide) [.writeOp 4] 5⟩

end RingBufferProof
